import Mathlib

/-!
Verification of the `zabbix-threat-control-go` scan/remediation core.

The Go sources are shallowly embedded: each Go function used by the
claims is translated into an executable Lean definition.  `float64`
CVSS scores are modelled as `ℚ` (all score operations in the sources
are order comparisons and exact arithmetic on small values), Go slices
as `List`, and Go maps as association lists whose lookup returns the
entry stored under a key.  String manipulation from the Go standard
library (`strings.Fields`, `strings.Contains`, `strings.Split`,
`strings.ToLower`, ...) is re-implemented on `List Char`.
-/

namespace ZTC

/-! ### List-of-char string utilities (Go `strings` package) -/

/-- Does `l` start with `pre` (Go `strings.HasPrefix` on rune lists)? -/
def startsWith : List Char → List Char → Bool
  | _, [] => true
  | [], _ :: _ => false
  | c :: cs, d :: ds => c = d && startsWith cs ds

/-- Does `hay` contain `needle` as a contiguous subsequence
(Go `strings.Contains` on rune lists)? -/
def containsSeq (needle : List Char) : List Char → Bool
  | [] => needle.isEmpty
  | c :: t => startsWith (c :: t) needle || containsSeq needle t

/-- Go `strings.Contains s sub`. -/
def goContains (s sub : String) : Bool :=
  containsSeq sub.toList s.toList

/-- Accumulator-style splitter on a separator character. -/
def splitChAux (sep : Char) : List Char → List Char → List (List Char)
  | [], acc => [acc.reverse]
  | c :: cs, acc =>
      if c = sep then acc.reverse :: splitChAux sep cs []
      else splitChAux sep cs (c :: acc)

/-- Go `strings.Split` on a one-character separator: every separator
occurrence produces a boundary, so `n` separators yield `n+1` pieces. -/
def splitCh (sep : Char) (l : List Char) : List (List Char) :=
  splitChAux sep l []

/-- Accumulator-style whitespace splitter keeping only maximal
non-whitespace runs. -/
def fieldsAux : List Char → List Char → List (List Char)
  | [], acc => if acc.isEmpty then [] else [acc.reverse]
  | c :: cs, acc =>
      if c.isWhitespace then
        if acc.isEmpty then fieldsAux cs []
        else acc.reverse :: fieldsAux cs []
      else fieldsAux cs (c :: acc)

/-- Go `strings.Fields`: split around runs of whitespace. -/
def goFields (s : String) : List (List Char) :=
  fieldsAux s.toList []

/-- Go `strings.TrimSpace` on rune lists. -/
def trimChars (l : List Char) : List Char :=
  ((l.dropWhile Char.isWhitespace).reverse.dropWhile Char.isWhitespace).reverse

/-- Join chunks with a separator list (Go `strings.Join`). -/
def joinSep (sep : List Char) : List (List Char) → List Char
  | [] => []
  | [x] => x
  | x :: y :: t => x ++ sep ++ joinSep sep (y :: t)

/-- Go `strings.ToLower` (ASCII case folding, as used by the sources). -/
def goToLower (s : String) : String :=
  String.mk (s.toList.map Char.toLower)

/-! ### Scanner data model (`internal/scanner`, type declarations) -/

/-- Go struct `PackageVuln`: vulnerability information for one package. -/
structure PackageVuln where
  Name : String
  Version : String
  Arch : String
  Score : ℚ
  Fix : String
  Bulletins : List String
  CVEs : List String
deriving DecidableEq

/-- Go struct `BulletinSummary`: per-host bulletin information. -/
structure BulletinSummary where
  ID : String
  «Type» : String
  Score : ℚ
  CVEs : List String
  Fix : String
  AffectedPkg : List String
  AffectedHosts : List String
deriving DecidableEq

/-- Go struct `HostEntry`: vulnerability data for a single host. -/
structure HostEntry where
  HostID : String
  Host : String
  Name : String
  OSName : String
  OSVersion : String
  Score : ℚ
  CumulativeFix : String
  Packages : List PackageVuln
  Bulletins : List BulletinSummary
deriving DecidableEq

/-- Go struct `PackageEntry`: a vulnerable package aggregated across hosts. -/
structure PackageEntry where
  Name : String
  Version : String
  Arch : String
  Score : ℚ
  Fix : String
  AffectedHosts : List String
  AffectedHostNames : List String
  Bulletins : List String
deriving DecidableEq

/-- Go struct `BulletinEntry`: a security bulletin aggregated across hosts. -/
structure BulletinEntry where
  ID : String
  «Type» : String
  Score : ℚ
  CVEs : List String
  Fix : String
  AffectedPkgs : List String
  AffectedHosts : List String
  AffectedHostNames : List String
deriving DecidableEq

/-- Go struct `Statistics`.  The Go `[11]int` histogram is modelled as a
total function from bucket index to count. -/
structure Statistics where
  TotalHosts : ℕ
  VulnerableHosts : ℕ
  TotalPackages : ℕ
  TotalBulletins : ℕ
  TotalCVEs : ℕ
  MaxCVSS : ℚ
  AvgCVSS : ℚ
  MinCVSS : ℚ
  MedianCVSS : ℚ
  Histogram : ℕ → ℕ

/-- Go struct `ScanResults`. -/
structure ScanResults where
  HostsScanned : ℕ
  HostsWithVulns : ℕ
  VulnerablePackages : ℕ
  MaxCVSS : ℚ
  Hosts : List HostEntry
  Packages : List PackageEntry
  Bulletins : List BulletinEntry

/-- Go struct `Aggregator`: the two Go maps are modelled as association
lists ordered by first insertion. -/
structure Aggregator where
  hosts : List HostEntry
  packages : List (String × PackageEntry)
  bulletins : List (String × BulletinEntry)

/-- Lookup in an association list modelling a Go map. -/
def mapLookup {β : Type} (k : String) : List (String × β) → Option β
  | [] => none
  | (k', v) :: m => if k' = k then some v else mapLookup k m

/-- Apply `f` to the value stored under `k` (Go in-place map update). -/
def updAt {β : Type} (k : String) (f : β → β) (m : List (String × β)) :
    List (String × β) :=
  m.map fun p => if p.1 = k then (p.1, f p.2) else p

/-- Insert `(k, v)` when `k` is absent (the `if !exists` branch of
`AddHost`). -/
def ensureKey {β : Type} (k : String) (v : β) (m : List (String × β)) :
    List (String × β) :=
  if (mapLookup k m).isSome then m else m ++ [(k, v)]

/-! ### Aggregator operations (`internal/scanner/aggregator.go`) -/

/-- Go `appendUnique`: append a value to a slice if not already present. -/
def appendUnique (slice : List String) (value : String) : List String :=
  if value ∈ slice then slice else slice ++ [value]

/-- Go `appendUniqueSlice`: append values from `src` to `dst`, skipping
values already present in `dst` or earlier in `src`. -/
def appendUniqueSlice (dst src : List String) : List String :=
  src.foldl appendUnique dst

/-- Go `NewAggregator` / the state reached by `Reset`. -/
def emptyAggregator : Aggregator := ⟨[], [], []⟩

/-- Go `Aggregator.Reset`: clear accumulated data. -/
def resetAgg (_ : Aggregator) : Aggregator := emptyAggregator

/-- Package aggregation key `name|version|arch`. -/
def pkgKey (p : PackageVuln) : String :=
  p.Name ++ "|" ++ p.Version ++ "|" ++ p.Arch

/-- Fresh `PackageEntry` created on first sight of a key. -/
def freshPkgEntry (p : PackageVuln) : PackageEntry :=
  { Name := p.Name, Version := p.Version, Arch := p.Arch, Score := p.Score,
    Fix := p.Fix, AffectedHosts := [], AffectedHostNames := [], Bulletins := [] }

/-- Per-finding update of a package aggregate inside `AddHost`. -/
def updPkgEntry (e : HostEntry) (p : PackageVuln) (pe : PackageEntry) :
    PackageEntry :=
  { pe with
    AffectedHosts := appendUnique pe.AffectedHosts e.HostID,
    AffectedHostNames := appendUnique pe.AffectedHostNames e.Name,
    Bulletins := appendUniqueSlice pe.Bulletins p.Bulletins,
    Score := if pe.Score < p.Score then p.Score else pe.Score }

/-- One iteration of the package loop in `Aggregator.AddHost`. -/
def addPkg (e : HostEntry) (m : List (String × PackageEntry))
    (p : PackageVuln) : List (String × PackageEntry) :=
  updAt (pkgKey p) (updPkgEntry e p) (ensureKey (pkgKey p) (freshPkgEntry p) m)

/-- Fresh `BulletinEntry` created on first sight of a bulletin ID. -/
def freshBulEntry (b : BulletinSummary) : BulletinEntry :=
  { ID := b.ID, «Type» := b.«Type», Score := b.Score, CVEs := b.CVEs, Fix := b.Fix,
    AffectedPkgs := [], AffectedHosts := [], AffectedHostNames := [] }

/-- Per-finding update of a bulletin aggregate inside `AddHost`. -/
def updBulEntry (e : HostEntry) (b : BulletinSummary) (be : BulletinEntry) :
    BulletinEntry :=
  { be with
    AffectedHosts := appendUnique be.AffectedHosts e.HostID,
    AffectedHostNames := appendUnique be.AffectedHostNames e.Name,
    AffectedPkgs := appendUniqueSlice be.AffectedPkgs b.AffectedPkg,
    Score := if be.Score < b.Score then b.Score else be.Score }

/-- One iteration of the bulletin loop in `Aggregator.AddHost`. -/
def addBul (e : HostEntry) (m : List (String × BulletinEntry))
    (b : BulletinSummary) : List (String × BulletinEntry) :=
  updAt b.ID (updBulEntry e b) (ensureKey b.ID (freshBulEntry b) m)

/-- Go `Aggregator.AddHost`. -/
def addHost (a : Aggregator) (e : HostEntry) : Aggregator :=
  { hosts := a.hosts ++ [e],
    packages := e.Packages.foldl (addPkg e) a.packages,
    bulletins := e.Bulletins.foldl (addBul e) a.bulletins }

/-- The aggregator state after a whole sequence of `AddHost` calls on a
fresh aggregator. -/
def mkAggregator (es : List HostEntry) : Aggregator :=
  es.foldl addHost emptyAggregator

/-! ### Results and statistics (`aggregator.go`)

Go's `sort.Slice(s, less)` with `less i j := s[i].Score > s[j].Score`
and `sort.Float64s` deliver the sorted rearrangement of the input; they
are modelled by `List.insertionSort` with the corresponding total
relation. -/

/-- Relation used to sort aggregates by descending score. -/
def descByScore {α : Type} (score : α → ℚ) (x y : α) : Prop :=
  score y ≤ score x

instance {α : Type} (score : α → ℚ) : DecidableRel (descByScore score) :=
  fun x y => inferInstanceAs (Decidable (score y ≤ score x))

instance {α : Type} (score : α → ℚ) : IsTotal α (descByScore score) :=
  ⟨fun x y => le_total (score y) (score x)⟩

instance {α : Type} (score : α → ℚ) : IsTrans α (descByScore score) :=
  ⟨fun _ _ _ h h' => le_trans h' h⟩

/-- Go `Aggregator.GetResults`. -/
def getResults (a : Aggregator) : ScanResults :=
  { HostsScanned := a.hosts.length,
    Hosts := a.hosts,
    HostsWithVulns := a.hosts.countP (fun h => decide (0 < h.Score)),
    MaxCVSS := a.hosts.foldl (fun m h => if m < h.Score then h.Score else m) 0,
    Packages := (a.packages.map Prod.snd).insertionSort
      (descByScore PackageEntry.Score),
    VulnerablePackages := a.packages.length,
    Bulletins := (a.bulletins.map Prod.snd).insertionSort
      (descByScore BulletinEntry.Score) }

/-- Go `int(f)` conversion of a `float64` score: truncation toward zero. -/
def truncQ (q : ℚ) : ℤ :=
  if q < 0 then -⌊-q⌋ else ⌊q⌋

/-- Histogram bucket computed by `GetStatistics`: truncate, clamp above
to 10, then clamp below to 0 (in that order, as in the source). -/
def bucketOf (q : ℚ) : ℕ :=
  let b := truncQ q
  let b := if 10 < b then 10 else b
  let b := if b < 0 then 0 else b
  b.toNat

/-- Increment one histogram cell. -/
def bump (f : ℕ → ℕ) (i : ℕ) : ℕ → ℕ :=
  fun j => if j = i then f j + 1 else f j

/-- Ascending sort of the score list (Go `sort.Float64s`). -/
def sortScores (l : List ℚ) : List ℚ :=
  l.insertionSort (· ≤ ·)

/-- Go `Aggregator.GetStatistics`.  The single Go loop over `a.hosts`
accumulates several independent variables; each accumulator is rendered
as its own fold over the same list. -/
def getStatistics (a : Aggregator) : Statistics :=
  let scores := a.hosts.map HostEntry.Score
  let totalScore := a.hosts.foldl (fun t h => t + h.Score) 0
  let hist := a.hosts.foldl (fun f h => bump f (bucketOf h.Score)) (fun _ => 0)
  let base : Statistics :=
    { TotalHosts := a.hosts.length,
      TotalPackages := a.packages.length,
      TotalBulletins := a.bulletins.length,
      VulnerableHosts := a.hosts.countP (fun h => decide (0 < h.Score)),
      MaxCVSS := a.hosts.foldl (fun m h => if m < h.Score then h.Score else m) 0,
      TotalCVEs := ((a.bulletins.map Prod.snd).flatMap BulletinEntry.CVEs).dedup.length,
      Histogram := hist,
      AvgCVSS := 0, MinCVSS := 0, MedianCVSS := 0 }
  if 0 < scores.length then
    let sorted := sortScores scores
    let mid := scores.length / 2
    { base with
      AvgCVSS := totalScore / (scores.length : ℚ),
      MinCVSS := sorted.getD 0 0,
      MedianCVSS :=
        if scores.length % 2 = 0 then
          (sorted.getD (mid - 1) 0 + sorted.getD mid 0) / 2
        else sorted.getD mid 0 }
  else base

/-! ### OS utilities (`internal/scanner/osutil.go`) -/

/-- Go `ParsePackageString`: split a package line on whitespace into
name, version and architecture. -/
def parsePackageString (pkg : String) : String × String × String :=
  match goFields pkg with
  | [a, b, c] => (String.mk a, String.mk b, String.mk c)
  | [a, b] => (String.mk a, String.mk b, "")
  | [a] => (String.mk a, "", "")
  | _ => (pkg, "", "")

/-- Go `NormalizeOSName`: canonical OS family tag by substring match on
the lowercased name. -/
def normalizeOSName (osName : String) : String :=
  let s := goToLower osName
  if goContains s "ubuntu" then "ubuntu"
  else if goContains s "debian" then "debian"
  else if goContains s "centos" then "centos"
  else if goContains s "red hat" || goContains s "rhel" then "redhat"
  else if goContains s "amazon" then "amazon"
  else if goContains s "oracle" then "oraclelinux"
  else if goContains s "suse" then "suse"
  else if goContains s "fedora" then "fedora"
  else if goContains s "alpine" then "alpine"
  else if goContains s "arch" then "arch"
  else s

/-- Go `ExtractOSVersion`: first whitespace-delimited token, or the
input itself when there is none. -/
def extractOSVersion (osVersion : String) : String :=
  match goFields osVersion with
  | v :: _ => String.mk v
  | [] => osVersion

/-! ### Host matrix (`internal/scanner/hostmatrix.go`) -/

/-- Go `parseOSInfo`: words before the first token starting with a
digit form the (lowercased) OS name; that token is the version. -/
def parseOSInfoAux : List (List Char) → List (List Char) × List Char
  | [] => ([], [])
  | part :: rest =>
      match part with
      | c :: _ =>
          if '0' ≤ c ∧ c ≤ '9' then ([], part)
          else
            let (np, v) := parseOSInfoAux rest
            (part :: np, v)
      | [] =>
          let (np, v) := parseOSInfoAux rest
          ([] :: np, v)

/-- Go `parseOSInfo` on the raw OS item value. -/
def parseOSInfo (osInfo : String) : String × String :=
  let parts := goFields (String.mk (trimChars osInfo.toList))
  let (nameParts, version) := parseOSInfoAux parts
  (goToLower (String.mk (joinSep [' '] nameParts)), String.mk version)

/-- Go `parsePackageList`: split on newlines, trim each line, drop
empty lines. -/
def parsePackageList (pkgList : String) : List String :=
  ((splitCh '\n' pkgList.toList).map trimChars).filterMap
    (fun l => if l.isEmpty then none else some (String.mk l))

/-- Go `validateHostData`: empty string means valid, otherwise the
exclusion reason. -/
def validateHostData (osVersion : String) (packages : List String) : String :=
  if osVersion = "0.0" then "OS version 0.0"
  else if packages.length ≤ 5 then "too few packages"
  else if packages.any (fun p => goContains p "report.py") then
    "report.py in packages"
  else ""

/-- Data kept for an eligible host. -/
structure HostData where
  OSName : String
  OSVersion : String
  Packages : List String
deriving DecidableEq

/-- Go `HostMatrix.fetchHostData`, restricted to its pure content: the
host's first non-empty `system.sw.os` and `system.sw.packages` item
values decide eligibility; `none` models the `nil, nil` returns that
silently exclude the host. -/
def fetchHostDataPure (osValue pkgValue : String) : Option HostData :=
  let (osName, osVersion) := parseOSInfo osValue
  if osName = "" then none
  else
    let packages := parsePackageList pkgValue
    if packages.length = 0 then none
    else
      let osName' := normalizeOSName osName
      let osVersion' := extractOSVersion osVersion
      if validateHostData osVersion' packages ≠ "" then none
      else some ⟨osName', osVersion', packages⟩

/-! ### Remediation validation (`internal/fixer`, sanitize source) -/

/-- ASCII alphanumeric character class `[a-zA-Z0-9]`. -/
def isAlnumCh (c : Char) : Bool :=
  ('a' ≤ c && c ≤ 'z') || ('A' ≤ c && c ≤ 'Z') || ('0' ≤ c && c ≤ '9')

/-- Character class `[a-zA-Z0-9._+:~-]` of `packageNameRe`. -/
def isPkgCh (c : Char) : Bool :=
  isAlnumCh c || c = '.' || c = '_' || c = '+' || c = ':' || c = '~' || c = '-'

/-- Whole-string match of `packageNameRe`, the anchored regular
expression `[a-zA-Z0-9][a-zA-Z0-9._+:~-]*` of the sanitize source. -/
def pkgNameReMatch : List Char → Bool
  | [] => false
  | c :: cs => isAlnumCh c && cs.all isPkgCh

/-- Go `ValidatePackageName` rendered as a Boolean: rejects the empty
name, names longer than 256 and names outside `packageNameRe`.  Go
measures bytes; character count coincides on the ASCII alphabet the
regex admits. -/
def validatePackageNameOk (name : String) : Bool :=
  !(name = "") && name.toList.length ≤ 256 && pkgNameReMatch name.toList

/-- Go `SanitizePackages` rendered as a Boolean: no name may fail
validation. -/
def sanitizePackagesOk (packages : List String) : Bool :=
  packages.all validatePackageNameOk

/-- Character class `[a-zA-Z0-9.-]` of `fqdnRe`. -/
def isFqdnCh (c : Char) : Bool :=
  isAlnumCh c || c = '.' || c = '-'

/-- Whole-string match of `fqdnRe`, the anchored regular expression
`[a-zA-Z0-9]([a-zA-Z0-9.-]{0,251}[a-zA-Z0-9])?`: either one single
alphanumeric character, or 2 to 253 characters that start and end with
an alphanumeric with the interior drawn from `[a-zA-Z0-9.-]`. -/
def fqdnReMatch (l : List Char) : Bool :=
  match l with
  | [] => false
  | c :: rest =>
      isAlnumCh c &&
      match rest.reverse with
      | [] => true
      | d :: mid => isAlnumCh d && mid.length ≤ 251 && mid.all isFqdnCh

/-- Go `isValidFQDN`: total length bound, `fqdnRe`, and every
dot-separated label of length 1 to 63. -/
def isValidFQDN (s : String) : Bool :=
  s.toList.length ≤ 253 && fqdnReMatch s.toList &&
    (splitCh '.' s.toList).all
      (fun label => !label.isEmpty && label.length ≤ 63)

/-- Decimal value of a digit string (Go `dtoi`). -/
def decimalVal (l : List Char) : ℕ :=
  l.foldl (fun n c => 10 * n + (c.toNat - '0'.toNat)) 0

/-- One IPv4 octet: one to three digits, no leading zero, value at
most 255. -/
def octetOk (f : List Char) : Bool :=
  1 ≤ f.length && f.length ≤ 3 && f.all Char.isDigit &&
    (f.length = 1 || f.head? ≠ some '0') && decimalVal f ≤ 255

/-- Dotted-quad IPv4 address as accepted by Go `net.ParseIP`. -/
def parseIPv4Ok (l : List Char) : Bool :=
  let fs := splitCh '.' l
  fs.length = 4 && fs.all octetOk

/-- Hexadecimal digit class for IPv6 groups. -/
def isHexCh (c : Char) : Bool :=
  c.isDigit || ('a' ≤ c && c ≤ 'f') || ('A' ≤ c && c ≤ 'F')

/-- One 16-bit IPv6 group: one to four hexadecimal digits. -/
def v6GroupOk (g : List Char) : Bool :=
  1 ≤ g.length && g.length ≤ 4 && g.all isHexCh

/-- Modelled from the spec: shape analysis of the pieces obtained by
splitting an IPv6 literal on `:`.  Returns the explicit groups together
with a flag telling whether a single `::` ellipsis occurred (as a
leading `::`, a trailing `::`, an interior `::`, or the bare `::`). -/
def v6Shape (gs : List (List Char)) : Option (Bool × List (List Char)) :=
  if gs.all (fun g => !g.isEmpty) then some (false, gs)
  else if gs = [[], [], []] then some (true, [])
  else
    match gs with
    | [] :: [] :: rest =>
        if !rest.isEmpty && rest.all (fun g => !g.isEmpty) then
          some (true, rest)
        else none
    | _ =>
        match gs.reverse with
        | [] :: [] :: restR =>
            if !restR.isEmpty && restR.all (fun g => !g.isEmpty) then
              some (true, restR.reverse)
            else none
        | _ =>
            if gs.countP List.isEmpty = 1 && gs.head? ≠ some [] &&
                gs.getLast? ≠ some [] then
              some (true, gs.filter (fun g => !g.isEmpty))
            else none

/-- Modelled from the spec: `parseable IP address`, IPv6 case of Go
`net.ParseIP` (not part of the repository sources).  Groups of up to
four hexadecimal digits separated by `:`, at most one `::` ellipsis
standing for at least one zero group, and an optional trailing embedded
IPv4 address counting as two groups. -/
def parseIPv6Ok (l : List Char) : Bool :=
  match v6Shape (splitCh ':' l) with
  | none => false
  | some (ell, gs) =>
      match gs.getLast? with
      | none => ell
      | some last =>
          if last.contains '.' then
            (gs.dropLast.all v6GroupOk) && parseIPv4Ok last &&
              (if ell then gs.length + 1 ≤ 7 else gs.length + 1 = 8)
          else
            gs.all v6GroupOk &&
              (if ell then gs.length ≤ 7 else gs.length = 8)

/-- First occurrence of `.` or `:`, which Go `net.ParseIP` uses to pick
the IPv4 or IPv6 parser. -/
def firstSpecial : List Char → Option Char
  | [] => none
  | c :: cs => if c = '.' || c = ':' then some c else firstSpecial cs

/-- Modelled from the spec: `parseable IP address` (Go `net.ParseIP`,
not part of the repository sources). -/
def goParseIPOk (s : String) : Bool :=
  match firstSpecial s.toList with
  | some '.' => parseIPv4Ok s.toList
  | some _ => parseIPv6Ok s.toList
  | none => false

/-- Go `ValidateHostTarget` rendered as a Boolean: non-empty, and a
parseable IP address or a string passing `isValidFQDN`. -/
def validateHostTargetOk (target : String) : Bool :=
  !(target = "") && (goParseIPOk target || isValidFQDN target)

/-! ### Fix-command generation (`internal/fixer/executor.go`) -/

/-- Single-quote character, used to wrap package names. -/
def quoteCh : String := "\x27"

/-- Go `quotePackages`: wrap each name in single quotes and join with
spaces. -/
def quotePackages (packages : List String) : String :=
  String.mk (joinSep [' ']
    (packages.map (fun p => (quoteCh ++ p ++ quoteCh).toList)))

/-- Go `generateDebianFixCommand`. -/
def generateDebianFixCommand (packages : List String) : String :=
  if packages.length = 0 then "apt-get update && apt-get upgrade -y"
  else "apt-get update && apt-get install -y --only-upgrade " ++
    quotePackages packages

/-- Go `generateRHELFixCommand`. -/
def generateRHELFixCommand (packages : List String) : String :=
  if packages.length = 0 then "yum update -y"
  else "yum update -y " ++ quotePackages packages

/-- Go `generateAmazonFixCommand`. -/
def generateAmazonFixCommand (packages : List String) : String :=
  if packages.length = 0 then "yum update -y"
  else "yum update -y " ++ quotePackages packages

/-- Go `Executor.GenerateFixCommand`: discard the package list when
sanitisation fails, then dispatch on the lowercased OS name. -/
def generateFixCommand (osName : String) (packages : List String) : String :=
  let packages := if sanitizePackagesOk packages then packages else []
  let os := goToLower osName
  if goContains os "ubuntu" || goContains os "debian" then
    generateDebianFixCommand packages
  else if goContains os "centos" || goContains os "red hat" ||
      goContains os "redhat" || goContains os "rhel" then
    generateRHELFixCommand packages
  else if goContains os "amazon" then
    generateAmazonFixCommand packages
  else
    generateDebianFixCommand packages

/-! ### Contribution scores and running maxima (claim C1 vocabulary) -/

/-- Fold of `max` over a list starting from `s`. -/
def maxFrom (s : ℚ) (cs : List ℚ) : ℚ :=
  cs.foldl max s

/-- Combined effect on a stored score (`o`) of a batch of contributing
scores (`cs`): absent stays absent when nothing contributes, otherwise
the running maximum. -/
def topScore (o : Option ℚ) (cs : List ℚ) : Option ℚ :=
  match o, cs with
  | none, [] => none
  | none, c :: cs => some (maxFrom c cs)
  | some s, cs => some (maxFrom s cs)

/-- Scores of the package findings of the hosts `es` that contribute to
the package key `k`. -/
def pkgContribScores (k : String) (es : List HostEntry) : List ℚ :=
  (((es.flatMap HostEntry.Packages).filter
      (fun p => pkgKey p = k)).map PackageVuln.Score)

/-- Scores of the bulletin findings of the hosts `es` that contribute
to the bulletin ID `k`. -/
def bulContribScores (k : String) (es : List HostEntry) : List ℚ :=
  (((es.flatMap HostEntry.Bulletins).filter
      (fun b => b.ID = k)).map BulletinSummary.Score)

/-! ### Spec-side reference definitions

Each definition below is written from the wording of a claim, to be
compared with the corresponding definition translated from the Go
sources. -/

/-- Histogram bucket as the claims describe it: the integer floor of
the score clamped into `[0,10]`. -/
def specBucket (q : ℚ) : ℕ :=
  (max 0 (min ⌊q⌋ 10)).toNat

/-- Host-target acceptance as claim C7 words it: a parseable IP
address, or a DNS name of total length at most 253 whose dot-separated
labels all have 1 to 63 characters and none of which begins or ends
with a hyphen. -/
def specDNSClaim (s : String) : Bool :=
  s.toList.length ≤ 253 &&
    (splitCh '.' s.toList).all (fun label =>
      1 ≤ label.length && label.length ≤ 63 &&
      label.head? ≠ some '-' && label.getLast? ≠ some '-')

/-- Claim C7, as stated, at one host-target string. -/
def c7Claim (s : String) : Prop :=
  validateHostTargetOk s = (goParseIPOk s || specDNSClaim s)

/-- Amended DNS-name acceptance: total length at most 253, characters
drawn from letters, digits, dots and hyphens, first and last character
alphanumeric, and every dot-separated label of 1 to 63 characters. -/
def specDNSAmended (s : String) : Bool :=
  match s.toList with
  | [] => false
  | c :: rest =>
      (c :: rest).length ≤ 253 &&
      isAlnumCh c && ((c :: rest).getLast?.all isAlnumCh) &&
      (c :: rest).all isFqdnCh &&
      (splitCh '.' (c :: rest)).all (fun label =>
        1 ≤ label.length && label.length ≤ 63)

/-- OS families distinguished by fix-command generation. -/
inductive OSFamily where
  | debian
  | rhel
  | amazon
  | unknown
deriving DecidableEq

/-- Family classification used by claim C6: substring match on the
lowercased OS name, in the order of the source's switch. -/
def classifyFamily (osName : String) : OSFamily :=
  let os := goToLower osName
  if goContains os "ubuntu" || goContains os "debian" then .debian
  else if goContains os "centos" || goContains os "red hat" ||
      goContains os "redhat" || goContains os "rhel" then .rhel
  else if goContains os "amazon" then .amazon
  else .unknown

/-- Full-system-update command of a family (claim C6 wording; the
unknown family uses the Debian form). -/
def fullUpdateCmd : OSFamily → String
  | .debian => "apt-get update && apt-get upgrade -y"
  | .rhel => "yum update -y"
  | .amazon => "yum update -y"
  | .unknown => "apt-get update && apt-get upgrade -y"

/-- Package-list command of a family for a non-empty validated list
(claim C6 wording). -/
def listUpdateCmd (fam : OSFamily) (packages : List String) : String :=
  match fam with
  | .debian => "apt-get update && apt-get install -y --only-upgrade " ++
      quotePackages packages
  | .rhel => "yum update -y " ++ quotePackages packages
  | .amazon => "yum update -y " ++ quotePackages packages
  | .unknown => "apt-get update && apt-get install -y --only-upgrade " ++
      quotePackages packages

/-- Fix-command generation as claim C6 words it: the package list is
discarded exactly when some name fails the validation regex. -/
def specFixCommandClaim (osName : String) (packages : List String) : String :=
  let fam := classifyFamily osName
  if packages.any (fun p => !pkgNameReMatch p.toList) then fullUpdateCmd fam
  else if packages.length = 0 then fullUpdateCmd fam
  else listUpdateCmd fam packages

/-- Claim C6, as stated, at one input. -/
def c6Claim (osName : String) (packages : List String) : Prop :=
  generateFixCommand osName packages = specFixCommandClaim osName packages

/-- Amended fix-command generation: the package list is discarded
exactly when some name fails the validation regex or is longer than
256 characters. -/
def specFixCommandAmended (osName : String) (packages : List String) :
    String :=
  let fam := classifyFamily osName
  if packages.any (fun p =>
      !(pkgNameReMatch p.toList && p.toList.length ≤ 256)) then
    fullUpdateCmd fam
  else if packages.length = 0 then fullUpdateCmd fam
  else listUpdateCmd fam packages

/-! ### Concrete sample data used by witnesses -/

/-- Sample host Alpha: `openssl 1.1 amd64` with score 5 under bulletin
`B1`. -/
def hostAlpha : HostEntry :=
  { HostID := "1", Host := "h1", Name := "Alpha", OSName := "ubuntu",
    OSVersion := "20.04", Score := 5, CumulativeFix := "",
    Packages := [{ Name := "openssl", Version := "1.1", Arch := "amd64",
                   Score := 5, Fix := "", Bulletins := ["B1"], CVEs := [] }],
    Bulletins := [{ ID := "B1", «Type» := "usn", Score := 5,
                    CVEs := ["CVE-1"], Fix := "", AffectedPkg := ["openssl"],
                    AffectedHosts := [] }] }

/-- Sample host Beta: the same package and bulletin with score 9. -/
def hostBeta : HostEntry :=
  { HostID := "2", Host := "h2", Name := "Beta", OSName := "ubuntu",
    OSVersion := "20.04", Score := 9, CumulativeFix := "",
    Packages := [{ Name := "openssl", Version := "1.1", Arch := "amd64",
                   Score := 9, Fix := "", Bulletins := ["B1"], CVEs := [] }],
    Bulletins := [{ ID := "B1", «Type» := "usn", Score := 9,
                    CVEs := ["CVE-1"], Fix := "", AffectedPkg := ["openssl"],
                    AffectedHosts := [] }] }

/-- Key of the sample package. -/
def sampleKey : String := "openssl|1.1|amd64"

/-- Package aggregate after adding `hostAlpha` alone. -/
def samplePkgEntryA : PackageEntry :=
  { Name := "openssl", Version := "1.1", Arch := "amd64", Score := 5,
    Fix := "", AffectedHosts := ["1"], AffectedHostNames := ["Alpha"],
    Bulletins := ["B1"] }

/-- Bulletin aggregate after adding `hostAlpha` alone. -/
def sampleBulEntryA : BulletinEntry :=
  { ID := "B1", «Type» := "usn", Score := 5, CVEs := ["CVE-1"], Fix := "",
    AffectedPkgs := ["openssl"], AffectedHosts := ["1"],
    AffectedHostNames := ["Alpha"] }

/-- Package aggregate after adding `hostAlpha` then `hostBeta`. -/
def samplePkgEntryAB : PackageEntry :=
  { Name := "openssl", Version := "1.1", Arch := "amd64", Score := 9,
    Fix := "", AffectedHosts := ["1", "2"],
    AffectedHostNames := ["Alpha", "Beta"], Bulletins := ["B1"] }

/-- Bulletin aggregate after adding `hostAlpha` then `hostBeta`. -/
def sampleBulEntryAB : BulletinEntry :=
  { ID := "B1", «Type» := "usn", Score := 9, CVEs := ["CVE-1"], Fix := "",
    AffectedPkgs := ["openssl"], AffectedHosts := ["1", "2"],
    AffectedHostNames := ["Alpha", "Beta"] }

/-! ### Association-list lemmas -/

theorem mapLookup_cons {β : Type} (k ka : String) (v : β)
    (m : List (String × β)) :
    mapLookup k ((ka, v) :: m) = if ka = k then some v else mapLookup k m :=
  rfl

theorem updAt_cons {β : Type} (k : String) (f : β → β) (ka : String) (v : β)
    (m : List (String × β)) :
    updAt k f ((ka, v) :: m) =
      (if ka = k then (ka, f v) else (ka, v)) :: updAt k f m :=
  rfl

theorem mapLookup_updAt_self {β : Type} (k : String) (f : β → β)
    (m : List (String × β)) :
    mapLookup k (updAt k f m) = (mapLookup k m).map f := by
  induction m with
  | nil => rfl
  | cons p m ih =>
      obtain ⟨ka, v⟩ := p
      rw [updAt_cons]
      by_cases h : ka = k <;> simp [h, mapLookup_cons, ih]

theorem mapLookup_updAt_ne {β : Type} {k' k : String} (hne : k' ≠ k)
    (f : β → β) (m : List (String × β)) :
    mapLookup k (updAt k' f m) = mapLookup k m := by
  induction m with
  | nil => rfl
  | cons p m ih =>
      obtain ⟨ka, v⟩ := p
      rw [updAt_cons]
      by_cases h : ka = k'
      · subst h
        simp [mapLookup_cons, hne, ih]
      · by_cases h2 : ka = k
        · subst h2
          rw [if_neg h]
          simp [mapLookup_cons]
        · simp [h, h2, mapLookup_cons, ih]

theorem mapLookup_append {β : Type} (k : String) (m m' : List (String × β)) :
    mapLookup k (m ++ m') = (mapLookup k m).or (mapLookup k m') := by
  induction m with
  | nil => simp [mapLookup]
  | cons p m ih =>
      obtain ⟨k', v⟩ := p
      by_cases h : k' = k <;> simp [mapLookup, h, ih]

theorem mapLookup_ensure_self {β : Type} (k : String) (v : β)
    (m : List (String × β)) :
    mapLookup k (ensureKey k v m) =
      some ((mapLookup k m).getD v) := by
  unfold ensureKey
  cases h : mapLookup k m with
  | some w => simp [h]
  | none => simp [h, mapLookup_append, mapLookup]

theorem mapLookup_ensure_ne {β : Type} {k' k : String} (hne : k' ≠ k)
    (v : β) (m : List (String × β)) :
    mapLookup k (ensureKey k' v m) = mapLookup k m := by
  unfold ensureKey
  split
  · rfl
  · simp [mapLookup_append, mapLookup, hne]

/-! ### Running-maximum lemmas -/

theorem maxFrom_nil (s : ℚ) : maxFrom s [] = s := rfl

theorem maxFrom_cons (s c : ℚ) (cs : List ℚ) :
    maxFrom s (c :: cs) = maxFrom (max s c) cs := rfl

theorem maxFrom_append (s : ℚ) (xs ys : List ℚ) :
    maxFrom s (xs ++ ys) = maxFrom (maxFrom s xs) ys := by
  simp [maxFrom, List.foldl_append]

theorem le_maxFrom_self (s : ℚ) (cs : List ℚ) : s ≤ maxFrom s cs := by
  induction cs generalizing s with
  | nil => simp [maxFrom_nil]
  | cons c cs ih =>
      rw [maxFrom_cons]
      exact le_trans (le_max_left s c) (ih (max s c))

theorem le_maxFrom_of_mem {x : ℚ} {cs : List ℚ} (hx : x ∈ cs) (s : ℚ) :
    x ≤ maxFrom s cs := by
  induction cs generalizing s with
  | nil => cases hx
  | cons c cs ih =>
      rw [maxFrom_cons]
      rcases List.mem_cons.mp hx with h | h
      · subst h
        exact le_trans (le_max_right s x) (le_maxFrom_self _ _)
      · exact ih h _

theorem maxFrom_mem (c : ℚ) (cs : List ℚ) : maxFrom c cs ∈ c :: cs := by
  induction cs generalizing c with
  | nil => simp [maxFrom_nil]
  | cons x xs ih =>
      rw [maxFrom_cons]
      rcases List.mem_cons.mp (ih (max c x)) with h | h
      · rw [h]
        rcases max_choice c x with hm | hm <;> rw [hm] <;> simp
      · exact List.mem_cons.mpr (Or.inr (List.mem_cons.mpr (Or.inr h)))

theorem topScore_nil (o : Option ℚ) : topScore o [] = o := by
  cases o <;> rfl

theorem topScore_append (o : Option ℚ) (xs ys : List ℚ) :
    topScore o (xs ++ ys) = topScore (topScore o xs) ys := by
  cases o with
  | some s => simp [topScore, maxFrom_append]
  | none =>
      cases xs with
      | nil => simp [topScore]
      | cons c xs => simp [topScore, maxFrom_append]

/-- Business rule of `AddHost`: `if s < c then c else s` is the maximum. -/
theorem ite_lt_eq_max (s c : ℚ) : (if s < c then c else s) = max s c := by
  rcases le_or_lt c s with h | h
  · simp [not_lt.mpr h, max_eq_left h]
  · simp [h, max_eq_right (le_of_lt h)]

/-! ### Score propagation through one aggregation step -/

theorem step_scoreLookup {β γ : Type} (sc : β → ℚ) (key : γ → String)
    (fresh : γ → β) (upd : γ → β → β) (csc : γ → ℚ)
    (hfresh : ∀ c, sc (fresh c) = csc c)
    (hupd : ∀ c b, sc (upd c b) = if sc b < csc c then csc c else sc b)
    (m : List (String × β)) (c : γ) (k : String) :
    (mapLookup k (updAt (key c) (upd c) (ensureKey (key c) (fresh c) m))).map
        sc =
      topScore ((mapLookup k m).map sc)
        (if key c = k then [csc c] else []) := by
  by_cases hk : key c = k
  · subst hk
    rw [mapLookup_updAt_self, mapLookup_ensure_self, if_pos rfl]
    cases h : mapLookup (key c) m with
    | none =>
        simp only [h, Option.getD_none, Option.map_some', Option.map_none',
          hupd, hfresh, topScore, maxFrom_nil, lt_self_iff_false, if_false]
    | some b =>
        simp only [h, Option.getD_some, Option.map_some', hupd, topScore,
          maxFrom_cons, maxFrom_nil, ite_lt_eq_max]
  · rw [mapLookup_updAt_ne hk, mapLookup_ensure_ne hk, if_neg hk,
      topScore_nil]

theorem foldl_topScore {δ β : Type} (sc : β → ℚ)
    (step : List (String × β) → δ → List (String × β))
    (con : δ → String → List ℚ)
    (hstep : ∀ m d k, (mapLookup k (step m d)).map sc =
      topScore ((mapLookup k m).map sc) (con d k)) :
    ∀ (ds : List δ) (m : List (String × β)) (k : String),
      (mapLookup k (ds.foldl step m)).map sc =
        topScore ((mapLookup k m).map sc)
          (ds.flatMap (fun d => con d k)) := by
  intro ds
  induction ds with
  | nil =>
      intro m k
      simp [topScore_nil]
  | cons d ds ih =>
      intro m k
      rw [List.foldl_cons, ih, hstep, List.flatMap_cons, topScore_append]

theorem addPkg_scoreLookup (e : HostEntry)
    (m : List (String × PackageEntry)) (p : PackageVuln) (k : String) :
    (mapLookup k (addPkg e m p)).map PackageEntry.Score =
      topScore ((mapLookup k m).map PackageEntry.Score)
        (if pkgKey p = k then [p.Score] else []) :=
  step_scoreLookup PackageEntry.Score pkgKey freshPkgEntry (updPkgEntry e)
    PackageVuln.Score (fun _ => rfl) (fun _ _ => rfl) m p k

theorem addBul_scoreLookup (e : HostEntry)
    (m : List (String × BulletinEntry)) (b : BulletinSummary) (k : String) :
    (mapLookup k (addBul e m b)).map BulletinEntry.Score =
      topScore ((mapLookup k m).map BulletinEntry.Score)
        (if b.ID = k then [b.Score] else []) :=
  step_scoreLookup BulletinEntry.Score BulletinSummary.ID freshBulEntry
    (updBulEntry e) BulletinSummary.Score (fun _ => rfl) (fun _ _ => rfl) m b k

theorem foldPkgs_scoreLookup (e : HostEntry) (ps : List PackageVuln)
    (m : List (String × PackageEntry)) (k : String) :
    (mapLookup k (ps.foldl (addPkg e) m)).map PackageEntry.Score =
      topScore ((mapLookup k m).map PackageEntry.Score)
        (ps.flatMap (fun p => if pkgKey p = k then [p.Score] else [])) :=
  foldl_topScore PackageEntry.Score (addPkg e) _
    (fun m p k => addPkg_scoreLookup e m p k) ps m k

theorem foldBuls_scoreLookup (e : HostEntry) (bs : List BulletinSummary)
    (m : List (String × BulletinEntry)) (k : String) :
    (mapLookup k (bs.foldl (addBul e) m)).map BulletinEntry.Score =
      topScore ((mapLookup k m).map BulletinEntry.Score)
        (bs.flatMap (fun b => if b.ID = k then [b.Score] else [])) :=
  foldl_topScore BulletinEntry.Score (addBul e) _
    (fun m b k => addBul_scoreLookup e m b k) bs m k

theorem foldl_addHost_packages (es : List HostEntry) (a : Aggregator) :
    (es.foldl addHost a).packages =
      es.foldl (fun m e => e.Packages.foldl (addPkg e) m) a.packages := by
  induction es generalizing a with
  | nil => rfl
  | cons e es ih =>
      rw [List.foldl_cons, List.foldl_cons, ih]
      rfl

theorem foldl_addHost_bulletins (es : List HostEntry) (a : Aggregator) :
    (es.foldl addHost a).bulletins =
      es.foldl (fun m e => e.Bulletins.foldl (addBul e) m) a.bulletins := by
  induction es generalizing a with
  | nil => rfl
  | cons e es ih =>
      rw [List.foldl_cons, List.foldl_cons, ih]
      rfl

theorem filter_map_scores {γ : Type} (key : γ → String) (csc : γ → ℚ)
    (k : String) (cs : List γ) :
    ((cs.filter (fun c => key c = k)).map csc) =
      cs.flatMap (fun c => if key c = k then [csc c] else []) := by
  induction cs with
  | nil => rfl
  | cons c cs ih =>
      by_cases hc : key c = k <;>
        simp [List.filter_cons, List.flatMap_cons, hc, ih]

theorem pkgContribScores_eq (k : String) (es : List HostEntry) :
    pkgContribScores k es =
      es.flatMap (fun e => e.Packages.flatMap
        (fun p => if pkgKey p = k then [p.Score] else [])) := by
  unfold pkgContribScores
  rw [filter_map_scores]
  induction es with
  | nil => rfl
  | cons e es ih => simp [List.flatMap_cons, List.flatMap_append, ih]

theorem bulContribScores_eq (k : String) (es : List HostEntry) :
    bulContribScores k es =
      es.flatMap (fun e => e.Bulletins.flatMap
        (fun b => if b.ID = k then [b.Score] else [])) := by
  unfold bulContribScores
  rw [filter_map_scores]
  induction es with
  | nil => rfl
  | cons e es ih => simp [List.flatMap_cons, List.flatMap_append, ih]

theorem mkAgg_pkgScoreLookup (es : List HostEntry) (k : String) :
    (mapLookup k (mkAggregator es).packages).map PackageEntry.Score =
      topScore none (pkgContribScores k es) := by
  unfold mkAggregator
  rw [foldl_addHost_packages, pkgContribScores_eq,
    foldl_topScore PackageEntry.Score _ _
      (fun m e k => foldPkgs_scoreLookup e e.Packages m k) es
      emptyAggregator.packages k]
  rfl

theorem mkAgg_bulScoreLookup (es : List HostEntry) (k : String) :
    (mapLookup k (mkAggregator es).bulletins).map BulletinEntry.Score =
      topScore none (bulContribScores k es) := by
  unfold mkAggregator
  rw [foldl_addHost_bulletins, bulContribScores_eq,
    foldl_topScore BulletinEntry.Score _ _
      (fun m e k => foldBuls_scoreLookup e e.Bulletins m k) es
      emptyAggregator.bulletins k]
  rfl

theorem monotone_of_scoreLookup {β : Type} (sc : β → ℚ)
    {m m' : List (String × β)} {k : String} {b : β} {cs : List ℚ}
    (hm : mapLookup k m = some b)
    (h : (mapLookup k m').map sc =
      topScore ((mapLookup k m).map sc) cs) :
    ∃ b', mapLookup k m' = some b' ∧ sc b ≤ sc b' := by
  rw [hm] at h
  have h' : (mapLookup k m').map sc = some (maxFrom (sc b) cs) := h
  obtain ⟨b', hb', hsc⟩ := Option.map_eq_some'.mp h'
  exact ⟨b', hb', hsc ▸ le_maxFrom_self (sc b) cs⟩

theorem max_of_scoreLookup {β : Type} (sc : β → ℚ)
    {m : List (String × β)} {k : String} {b : β} {cs : List ℚ}
    (hm : mapLookup k m = some b)
    (h : (mapLookup k m).map sc = topScore none cs) :
    sc b ∈ cs ∧ ∀ s ∈ cs, s ≤ sc b := by
  rw [hm] at h
  cases cs with
  | nil => simp [topScore] at h
  | cons c cs =>
      have hb : sc b = maxFrom c cs := by
        simpa [topScore] using h
      constructor
      · exact hb ▸ maxFrom_mem c cs
      · intro s hs
        rcases List.mem_cons.mp hs with h1 | h1
        · exact hb ▸ h1 ▸ le_maxFrom_self c cs
        · exact hb ▸ le_maxFrom_of_mem h1 c

/-- C1: for every sequence of `AddHost` calls, the score of any package
or bulletin aggregate never decreases from one call to the next, and
after the whole sequence the aggregate's score equals the maximum score
over all findings (package entries, respectively bulletin entries) that
contributed to that aggregate's key. -/
theorem c1_aggregate_score_max :
    (∀ (a : Aggregator) (e : HostEntry) (k : String) (pe : PackageEntry),
        mapLookup k a.packages = some pe →
        ∃ pe', mapLookup k (addHost a e).packages = some pe' ∧
          pe.Score ≤ pe'.Score) ∧
    (∀ (a : Aggregator) (e : HostEntry) (k : String) (be : BulletinEntry),
        mapLookup k a.bulletins = some be →
        ∃ be', mapLookup k (addHost a e).bulletins = some be' ∧
          be.Score ≤ be'.Score) ∧
    (∀ (es : List HostEntry) (k : String) (pe : PackageEntry),
        mapLookup k (mkAggregator es).packages = some pe →
        pe.Score ∈ pkgContribScores k es ∧
          ∀ s ∈ pkgContribScores k es, s ≤ pe.Score) ∧
    (∀ (es : List HostEntry) (k : String) (be : BulletinEntry),
        mapLookup k (mkAggregator es).bulletins = some be →
        be.Score ∈ bulContribScores k es ∧
          ∀ s ∈ bulContribScores k es, s ≤ be.Score) := by
  refine ⟨?_, ?_, ?_, ?_⟩
  · intro a e k pe h
    exact monotone_of_scoreLookup PackageEntry.Score h
      (foldPkgs_scoreLookup e e.Packages a.packages k)
  · intro a e k be h
    exact monotone_of_scoreLookup BulletinEntry.Score h
      (foldBuls_scoreLookup e e.Bulletins a.bulletins k)
  · intro es k pe h
    exact max_of_scoreLookup PackageEntry.Score h
      (mkAgg_pkgScoreLookup es k)
  · intro es k be h
    exact max_of_scoreLookup BulletinEntry.Score h
      (mkAgg_bulScoreLookup es k)

/-- Witness for C1 at the two sample hosts. -/
theorem c1_aggregate_score_max_witness :
    (∃ pe', mapLookup sampleKey
        (addHost (mkAggregator [hostAlpha]) hostBeta).packages = some pe' ∧
        samplePkgEntryA.Score ≤ pe'.Score) ∧
    (∃ be', mapLookup "B1"
        (addHost (mkAggregator [hostAlpha]) hostBeta).bulletins = some be' ∧
        sampleBulEntryA.Score ≤ be'.Score) ∧
    (samplePkgEntryAB.Score ∈ pkgContribScores sampleKey [hostAlpha, hostBeta] ∧
      ∀ s ∈ pkgContribScores sampleKey [hostAlpha, hostBeta],
        s ≤ samplePkgEntryAB.Score) ∧
    (sampleBulEntryAB.Score ∈ bulContribScores "B1" [hostAlpha, hostBeta] ∧
      ∀ s ∈ bulContribScores "B1" [hostAlpha, hostBeta],
        s ≤ sampleBulEntryAB.Score) :=
  ⟨c1_aggregate_score_max.1 (mkAggregator [hostAlpha]) hostBeta sampleKey
      samplePkgEntryA (by decide),
    c1_aggregate_score_max.2.1 (mkAggregator [hostAlpha]) hostBeta "B1"
      sampleBulEntryA (by decide),
    c1_aggregate_score_max.2.2.1 [hostAlpha, hostBeta] sampleKey
      samplePkgEntryAB (by decide),
    c1_aggregate_score_max.2.2.2 [hostAlpha, hostBeta] "B1"
      sampleBulEntryAB (by decide)⟩

/-! ### Dedup invariant machinery (claim C2) -/

theorem appendUnique_mem {l : List String} {v : String} (h : v ∈ l) :
    appendUnique l v = l := by
  simp [appendUnique, h]

theorem appendUnique_not_mem {l : List String} {v : String} (h : v ∉ l) :
    appendUnique l v = l ++ [v] := by
  simp [appendUnique, h]

theorem appendUnique_nodup {l : List String} (v : String) (h : l.Nodup) :
    (appendUnique l v).Nodup := by
  by_cases hv : v ∈ l
  · rw [appendUnique_mem hv]
    exact h
  · rw [appendUnique_not_mem hv]
    refine List.Nodup.append h (List.nodup_singleton v) ?_
    intro a ha hb
    rw [List.mem_singleton] at hb
    exact hv (hb ▸ ha)

theorem allVals_step {β γ : Type} (P : β → Prop) (key : γ → String)
    (fresh : γ → β) (upd : γ → β → β) (c : γ)
    (hfresh : P (fresh c)) (hupd : ∀ b, P b → P (upd c b))
    (m : List (String × β))
    (hm : ∀ k b, mapLookup k m = some b → P b) :
    ∀ k b,
      mapLookup k (updAt (key c) (upd c) (ensureKey (key c) (fresh c) m)) =
        some b → P b := by
  intro k b hb
  by_cases hk : key c = k
  · subst hk
    rw [mapLookup_updAt_self, mapLookup_ensure_self] at hb
    cases h : mapLookup (key c) m with
    | none =>
        rw [h] at hb
        simp only [Option.getD_none, Option.map_some'] at hb
        obtain rfl : upd c (fresh c) = b := by injection hb
        exact hupd _ hfresh
    | some w =>
        rw [h] at hb
        simp only [Option.getD_some, Option.map_some'] at hb
        obtain rfl : upd c w = b := by injection hb
        exact hupd _ (hm _ w h)
  · rw [mapLookup_updAt_ne hk, mapLookup_ensure_ne hk] at hb
    exact hm k b hb

theorem allVals_foldl {δ β : Type} (P : β → Prop)
    (step : List (String × β) → δ → List (String × β))
    (hstep : ∀ m d, (∀ k b, mapLookup k m = some b → P b) →
      ∀ k b, mapLookup k (step m d) = some b → P b) :
    ∀ (ds : List δ) (m : List (String × β)),
      (∀ k b, mapLookup k m = some b → P b) →
      ∀ k b, mapLookup k (ds.foldl step m) = some b → P b := by
  intro ds
  induction ds with
  | nil =>
      intro m hm
      exact hm
  | cons d ds ih =>
      intro m hm
      rw [List.foldl_cons]
      exact ih (step m d) (hstep m d hm)

theorem mkAgg_pkg_nodup (es : List HostEntry) (k : String)
    (pe : PackageEntry)
    (h : mapLookup k (mkAggregator es).packages = some pe) :
    pe.AffectedHosts.Nodup ∧ pe.AffectedHostNames.Nodup := by
  have base : ∀ k b, mapLookup k ([] : List (String × PackageEntry)) =
      some b → b.AffectedHosts.Nodup ∧ b.AffectedHostNames.Nodup := by
    intro k b hb
    cases hb
  have main := allVals_foldl
    (fun pe : PackageEntry =>
      pe.AffectedHosts.Nodup ∧ pe.AffectedHostNames.Nodup)
    (fun m e => e.Packages.foldl (addPkg e) m)
    (fun m e hm =>
      allVals_foldl _ (addPkg e)
        (fun m' p hm' =>
          allVals_step _ pkgKey freshPkgEntry (updPkgEntry e) p
            ⟨List.nodup_nil, List.nodup_nil⟩
            (fun b hb => ⟨appendUnique_nodup _ hb.1, appendUnique_nodup _ hb.2⟩)
            m' hm')
        e.Packages m hm)
    es [] base
  rw [mkAggregator, foldl_addHost_packages] at h
  exact main k pe h

theorem mkAgg_bul_nodup (es : List HostEntry) (k : String)
    (be : BulletinEntry)
    (h : mapLookup k (mkAggregator es).bulletins = some be) :
    be.AffectedHosts.Nodup ∧ be.AffectedHostNames.Nodup := by
  have base : ∀ k b, mapLookup k ([] : List (String × BulletinEntry)) =
      some b → b.AffectedHosts.Nodup ∧ b.AffectedHostNames.Nodup := by
    intro k b hb
    cases hb
  have main := allVals_foldl
    (fun be : BulletinEntry =>
      be.AffectedHosts.Nodup ∧ be.AffectedHostNames.Nodup)
    (fun m e => e.Bulletins.foldl (addBul e) m)
    (fun m e hm =>
      allVals_foldl _ (addBul e)
        (fun m' b hm' =>
          allVals_step _ BulletinSummary.ID freshBulEntry (updBulEntry e) b
            ⟨List.nodup_nil, List.nodup_nil⟩
            (fun b' hb => ⟨appendUnique_nodup _ hb.1, appendUnique_nodup _ hb.2⟩)
            m' hm')
        e.Bulletins m hm)
    es [] base
  rw [mkAggregator, foldl_addHost_bulletins] at h
  exact main k be h

/-- C2: for every sequence of `AddHost` calls, each affected-host ID
set and affected-host-name set held in a package or bulletin aggregate
contains no duplicate elements; the underlying `appendUnique` appends a
new value at the end (preserving first-insertion order) and leaves the
set unchanged when the value is already present. -/
theorem c2_dedup_first_insertion :
    (∀ (l : List String) (v : String),
        (v ∈ l → appendUnique l v = l) ∧
        (v ∉ l → appendUnique l v = l ++ [v])) ∧
    (∀ (es : List HostEntry) (k : String) (pe : PackageEntry),
        mapLookup k (mkAggregator es).packages = some pe →
        pe.AffectedHosts.Nodup ∧ pe.AffectedHostNames.Nodup) ∧
    (∀ (es : List HostEntry) (k : String) (be : BulletinEntry),
        mapLookup k (mkAggregator es).bulletins = some be →
        be.AffectedHosts.Nodup ∧ be.AffectedHostNames.Nodup) :=
  ⟨fun _ _ => ⟨fun h => appendUnique_mem h, fun h => appendUnique_not_mem h⟩,
    mkAgg_pkg_nodup, mkAgg_bul_nodup⟩

/-- Witness for C2 at the two sample hosts and a duplicate insertion. -/
theorem c2_dedup_first_insertion_witness :
    (appendUnique ["1", "2"] "2" = ["1", "2"] ∧
      appendUnique ["1", "2"] "3" = ["1", "2"] ++ ["3"]) ∧
    (samplePkgEntryAB.AffectedHosts.Nodup ∧
      samplePkgEntryAB.AffectedHostNames.Nodup) ∧
    (sampleBulEntryAB.AffectedHosts.Nodup ∧
      sampleBulEntryAB.AffectedHostNames.Nodup) :=
  ⟨⟨(c2_dedup_first_insertion.1 ["1", "2"] "2").1 (by decide),
      (c2_dedup_first_insertion.1 ["1", "2"] "3").2 (by decide)⟩,
    c2_dedup_first_insertion.2.1 [hostAlpha, hostBeta] sampleKey
      samplePkgEntryAB (by decide),
    c2_dedup_first_insertion.2.2 [hostAlpha, hostBeta] "B1"
      sampleBulEntryAB (by decide)⟩

/-- C8: the packages sequence and the bulletins sequence returned by
`GetResults` are each sorted in non-increasing order of score. -/
theorem c8_results_sorted_desc (a : Aggregator) :
    List.Pairwise (fun x y => y.Score ≤ x.Score) (getResults a).Packages ∧
    List.Pairwise (fun x y => y.Score ≤ x.Score) (getResults a).Bulletins :=
  ⟨List.sorted_insertionSort (descByScore PackageEntry.Score)
      (a.packages.map Prod.snd),
    List.sorted_insertionSort (descByScore BulletinEntry.Score)
      (a.bulletins.map Prod.snd)⟩

/-- C9: on an aggregator holding no hosts (freshly created or just
reset) `GetStatistics` returns all-zero score statistics and an
all-zero histogram; the guarded index/division branch is not taken. -/
theorem c9_empty_statistics (a : Aggregator) :
    resetAgg a = emptyAggregator ∧
    (getStatistics emptyAggregator).MinCVSS = 0 ∧
    (getStatistics emptyAggregator).MedianCVSS = 0 ∧
    (getStatistics emptyAggregator).AvgCVSS = 0 ∧
    (getStatistics emptyAggregator).MaxCVSS = 0 ∧
    ∀ i, (getStatistics emptyAggregator).Histogram i = 0 :=
  ⟨rfl, rfl, rfl, rfl, rfl, fun _ => rfl⟩

/-! ### Statistics lemmas (claims C3 and C4) -/

theorem foldl_addHost_hosts (es : List HostEntry) (a : Aggregator) :
    (es.foldl addHost a).hosts = a.hosts ++ es := by
  induction es generalizing a with
  | nil => simp
  | cons e es ih =>
      rw [List.foldl_cons, ih]
      simp [addHost]

theorem mkAgg_hosts (es : List HostEntry) : (mkAggregator es).hosts = es := by
  rw [mkAggregator, foldl_addHost_hosts]
  rfl

theorem foldl_add_eq_sum (l : List HostEntry) (q : ℚ) :
    l.foldl (fun t h => t + h.Score) q = q + (l.map HostEntry.Score).sum := by
  induction l generalizing q with
  | nil => simp
  | cons e l ih =>
      rw [List.foldl_cons, ih]
      simp [add_assoc]

theorem sorted_getD_zero_le {l : List ℚ} (hs : List.Sorted (· ≤ ·) l) :
    ∀ x ∈ l, l.getD 0 0 ≤ x := by
  cases l with
  | nil => intro x hx; cases hx
  | cons a t =>
      intro x hx
      rcases List.mem_cons.mp hx with h | h
      · exact h ▸ le_refl a
      · exact (List.pairwise_cons.mp hs).1 x h

theorem getD_zero_mem {l : List ℚ} (h : l ≠ []) : l.getD 0 0 ∈ l := by
  cases l with
  | nil => exact absurd rfl h
  | cons a t => simp

theorem sortScores_sorted (l : List ℚ) :
    List.Sorted (· ≤ ·) (sortScores l) :=
  List.sorted_insertionSort (· ≤ ·) l

theorem sortScores_perm (l : List ℚ) : List.Perm (sortScores l) l :=
  List.perm_insertionSort (· ≤ ·) l

theorem getStatistics_histogram (a : Aggregator) :
    (getStatistics a).Histogram =
      a.hosts.foldl (fun f h => bump f (bucketOf h.Score)) (fun _ => 0) := by
  unfold getStatistics
  dsimp only
  split <;> rfl

theorem getStatistics_totalHosts (a : Aggregator) :
    (getStatistics a).TotalHosts = a.hosts.length := by
  unfold getStatistics
  dsimp only
  split <;> rfl

theorem getStatistics_vulnerable (a : Aggregator) :
    (getStatistics a).VulnerableHosts =
      a.hosts.countP (fun h => decide (0 < h.Score)) := by
  unfold getStatistics
  dsimp only
  split <;> rfl

theorem hist_foldl (l : List HostEntry) (g : ℕ → ℕ) (b : ℕ) :
    (l.foldl (fun f h => bump f (bucketOf h.Score)) g) b =
      g b + (l.map HostEntry.Score).countP
        (fun q => decide (bucketOf q = b)) := by
  induction l generalizing g with
  | nil => simp
  | cons e l ih =>
      rw [List.foldl_cons, ih]
      simp only [List.map_cons, List.countP_cons]
      by_cases hb : bucketOf e.Score = b
      · simp [bump, hb]
        omega
      · have : ¬b = bucketOf e.Score := fun h => hb h.symm
        simp [bump, hb, this]

theorem bucketOf_eq_specBucket (q : ℚ) : bucketOf q = specBucket q := by
  unfold bucketOf specBucket truncQ
  dsimp only
  rcases lt_or_le q 0 with hq | hq
  · have h1 : 0 ≤ ⌊-q⌋ := Int.floor_nonneg.mpr (by linarith)
    have h2 : ⌊q⌋ < 0 := by
      rw [Int.floor_lt]
      push_cast
      linarith
    rw [if_pos hq]
    split_ifs <;> omega
  · have h1 : 0 ≤ ⌊q⌋ := Int.floor_nonneg.mpr hq
    rw [if_neg (not_lt.mpr hq)]
    split_ifs <;> omega

theorem specBucket_le_ten (q : ℚ) : specBucket q ≤ 10 := by
  unfold specBucket
  rw [Int.toNat_le]
  exact max_le (by norm_num) (le_trans (min_le_right _ _) (by norm_num))

theorem countP_bucket_total (sc : List ℚ) :
    ∑ b in Finset.range 11,
        sc.countP (fun q => decide (specBucket q = b)) = sc.length := by
  induction sc with
  | nil => simp
  | cons q t ih =>
      simp only [List.countP_cons, List.length_cons]
      rw [Finset.sum_add_distrib, ih]
      have hone : ∑ b in Finset.range 11,
          (if decide (specBucket q = b) = true then 1 else 0) = 1 := by
        have hmem : specBucket q ∈ Finset.range 11 :=
          Finset.mem_range.mpr (Nat.lt_succ_of_le (specBucket_le_ten q))
        simp only [decide_eq_true_eq]
        rw [Finset.sum_ite_eq (Finset.range 11) (specBucket q) (fun _ => 1)]
        simp [hmem]
      omega

theorem getStatistics_nonempty (a : Aggregator) (h : a.hosts ≠ []) :
    (getStatistics a).AvgCVSS =
      a.hosts.foldl (fun t h => t + h.Score) 0 /
        ((a.hosts.map HostEntry.Score).length : ℚ) ∧
    (getStatistics a).MinCVSS =
      (sortScores (a.hosts.map HostEntry.Score)).getD 0 0 ∧
    (getStatistics a).MedianCVSS =
      (if (a.hosts.map HostEntry.Score).length % 2 = 0 then
        ((sortScores (a.hosts.map HostEntry.Score)).getD
            ((a.hosts.map HostEntry.Score).length / 2 - 1) 0 +
          (sortScores (a.hosts.map HostEntry.Score)).getD
            ((a.hosts.map HostEntry.Score).length / 2) 0) / 2
      else
        (sortScores (a.hosts.map HostEntry.Score)).getD
          ((a.hosts.map HostEntry.Score).length / 2) 0) := by
  unfold getStatistics
  dsimp only
  rw [if_pos (by simpa [List.length_map] using List.length_pos.mpr h)]
  exact ⟨rfl, rfl, rfl⟩

/-- C3: for every non-empty sequence of hosts added via `AddHost`,
`GetStatistics` computes the minimum, median and average over the
scores of all added hosts including those with score 0, counts
`VulnerableHosts` as exactly the hosts with strictly positive score,
and on even cardinality the median is the arithmetic mean of the two
middle entries of the sorted score list. -/
theorem c3_statistics_all_hosts (es : List HostEntry) (hne : es ≠ []) :
    (getStatistics (mkAggregator es)).VulnerableHosts =
      (es.map HostEntry.Score).countP (fun x => decide (0 < x)) ∧
    (getStatistics (mkAggregator es)).AvgCVSS =
      (es.map HostEntry.Score).sum / ((es.map HostEntry.Score).length : ℚ) ∧
    (getStatistics (mkAggregator es)).MinCVSS ∈ es.map HostEntry.Score ∧
    (∀ x ∈ es.map HostEntry.Score,
      (getStatistics (mkAggregator es)).MinCVSS ≤ x) ∧
    List.Sorted (· ≤ ·) (sortScores (es.map HostEntry.Score)) ∧
    List.Perm (sortScores (es.map HostEntry.Score))
      (es.map HostEntry.Score) ∧
    ((es.map HostEntry.Score).length % 2 = 0 →
      (getStatistics (mkAggregator es)).MedianCVSS =
        ((sortScores (es.map HostEntry.Score)).getD
            ((es.map HostEntry.Score).length / 2 - 1) 0 +
          (sortScores (es.map HostEntry.Score)).getD
            ((es.map HostEntry.Score).length / 2) 0) / 2) ∧
    ((es.map HostEntry.Score).length % 2 ≠ 0 →
      (getStatistics (mkAggregator es)).MedianCVSS =
        (sortScores (es.map HostEntry.Score)).getD
          ((es.map HostEntry.Score).length / 2) 0) := by
  have hh : (mkAggregator es).hosts = es := mkAgg_hosts es
  have hne' : (mkAggregator es).hosts ≠ [] := by
    rw [hh]
    exact hne
  obtain ⟨havg, hmin, hmed⟩ := getStatistics_nonempty _ hne'
  rw [hh] at havg hmin hmed
  have hsortne : sortScores (es.map HostEntry.Score) ≠ [] := by
    intro h0
    have hp := sortScores_perm (es.map HostEntry.Score)
    rw [h0] at hp
    have : es.map HostEntry.Score = [] := hp.symm.eq_nil
    exact hne (List.map_eq_nil_iff.mp this)
  refine ⟨?_, ?_, ?_, ?_, sortScores_sorted _, sortScores_perm _, ?_, ?_⟩
  · rw [getStatistics_vulnerable, hh, List.countP_map]
    rfl
  · rw [havg, foldl_add_eq_sum, zero_add]
  · rw [hmin]
    exact (sortScores_perm _).subset (getD_zero_mem hsortne)
  · intro x hx
    rw [hmin]
    exact sorted_getD_zero_le (sortScores_sorted _) x
      ((sortScores_perm _).symm.subset hx)
  · intro hev
    rw [hmed, if_pos hev]
  · intro hodd
    rw [hmed, if_neg hodd]

/-- Witness for C3 at a concrete two-host sequence. -/
theorem c3_statistics_all_hosts_witness :
    (getStatistics (mkAggregator [hostAlpha, hostBeta])).VulnerableHosts =
      ([hostAlpha, hostBeta].map HostEntry.Score).countP
        (fun x => decide (0 < x)) ∧
    (getStatistics (mkAggregator [hostAlpha, hostBeta])).AvgCVSS =
      ([hostAlpha, hostBeta].map HostEntry.Score).sum /
        (([hostAlpha, hostBeta].map HostEntry.Score).length : ℚ) ∧
    (getStatistics (mkAggregator [hostAlpha, hostBeta])).MinCVSS ∈
      [hostAlpha, hostBeta].map HostEntry.Score ∧
    (∀ x ∈ [hostAlpha, hostBeta].map HostEntry.Score,
      (getStatistics (mkAggregator [hostAlpha, hostBeta])).MinCVSS ≤ x) ∧
    (getStatistics (mkAggregator [hostAlpha, hostBeta])).MedianCVSS =
      ((sortScores ([hostAlpha, hostBeta].map HostEntry.Score)).getD
          (([hostAlpha, hostBeta].map HostEntry.Score).length / 2 - 1) 0 +
        (sortScores ([hostAlpha, hostBeta].map HostEntry.Score)).getD
          (([hostAlpha, hostBeta].map HostEntry.Score).length / 2) 0) / 2 :=
  have h := c3_statistics_all_hosts [hostAlpha, hostBeta] (by decide)
  ⟨h.1, h.2.1, h.2.2.1, h.2.2.2.1, h.2.2.2.2.2.2.1 (by decide)⟩

/-- C4: `GetStatistics` assigns each added host to exactly one
histogram bucket, the bucket index being the integer floor of the
host's score clamped into `[0,10]`, so the histogram cells 0 through 10
sum to `TotalHosts`. -/
theorem c4_histogram_partition (es : List HostEntry) :
    (∀ b, (getStatistics (mkAggregator es)).Histogram b =
      (es.map HostEntry.Score).countP
        (fun q => decide (specBucket q = b))) ∧
    ∑ b in Finset.range 11,
        (getStatistics (mkAggregator es)).Histogram b =
      (getStatistics (mkAggregator es)).TotalHosts := by
  have hh : (mkAggregator es).hosts = es := mkAgg_hosts es
  have hfun : ∀ b, (getStatistics (mkAggregator es)).Histogram b =
      (es.map HostEntry.Score).countP
        (fun q => decide (specBucket q = b)) := by
    intro b
    rw [getStatistics_histogram, hh, hist_foldl]
    have hcongr : (fun q => decide (bucketOf q = b)) =
        (fun q => decide (specBucket q = b)) := by
      funext q
      rw [bucketOf_eq_specBucket]
    rw [hcongr, Nat.zero_add]
  refine ⟨hfun, ?_⟩
  rw [getStatistics_totalHosts, hh]
  calc ∑ b in Finset.range 11,
          (getStatistics (mkAggregator es)).Histogram b
      = ∑ b in Finset.range 11, (es.map HostEntry.Score).countP
          (fun q => decide (specBucket q = b)) :=
        Finset.sum_congr rfl (fun b _ => hfun b)
    _ = (es.map HostEntry.Score).length := countP_bucket_total _
    _ = es.length := List.length_map _ _

/-- C10: package-line parsing splits on whitespace; 3 fields yield
name, version and architecture, 2 fields leave the architecture empty,
1 field leaves version and architecture empty, and 4 or more fields
return the entire unsplit input as the name. -/
theorem c10_parse_package_line (s : String) :
    (∀ a b c, goFields s = [a, b, c] →
      parsePackageString s = (String.mk a, String.mk b, String.mk c)) ∧
    (∀ a b, goFields s = [a, b] →
      parsePackageString s = (String.mk a, String.mk b, "")) ∧
    (∀ a, goFields s = [a] → parsePackageString s = (String.mk a, "", "")) ∧
    (4 ≤ (goFields s).length → parsePackageString s = (s, "", "")) := by
  refine ⟨?_, ?_, ?_, ?_⟩
  · intro a b c h
    unfold parsePackageString
    rw [h]
  · intro a b h
    unfold parsePackageString
    rw [h]
  · intro a h
    unfold parsePackageString
    rw [h]
  · intro h
    unfold parsePackageString
    rcases hf : goFields s with _ | ⟨a, _ | ⟨b, _ | ⟨c, _ | ⟨d, t⟩⟩⟩⟩
    · rfl
    · rw [hf] at h
      simp at h
    · rw [hf] at h
      simp at h
    · rw [hf] at h
      simp at h
    · rfl

/-- Witness for C10 at a three-field line and a four-field line. -/
theorem c10_parse_package_line_witness :
    parsePackageString "nginx 1.18.0 amd64" =
      (String.mk "nginx".toList, String.mk "1.18.0".toList,
        String.mk "amd64".toList) ∧
    parsePackageString "a b c d" = ("a b c d", "", "") :=
  ⟨(c10_parse_package_line "nginx 1.18.0 amd64").1 "nginx".toList
      "1.18.0".toList "amd64".toList (by decide),
    (c10_parse_package_line "a b c d").2.2.2 (by decide)⟩

/-- C5: a fetched host is eligible exactly when its parsed OS name is
non-empty, its extracted OS version is not `0.0`, its parsed package
list has strictly more than 5 entries, and no package line contains
`report.py`; otherwise the fetch silently yields nothing. -/
theorem c5_host_eligibility (osValue pkgValue : String) :
    (fetchHostDataPure osValue pkgValue).isSome = true ↔
      ((parseOSInfo osValue).1 ≠ "" ∧
       extractOSVersion (parseOSInfo osValue).2 ≠ "0.0" ∧
       5 < (parsePackageList pkgValue).length ∧
       ∀ p ∈ parsePackageList pkgValue,
         goContains p "report.py" = false) := by
  unfold fetchHostDataPure
  rcases hp : parseOSInfo osValue with ⟨n, v⟩
  dsimp only
  by_cases hn : n = ""
  · simp [hn]
  · rw [if_neg hn]
    by_cases h0 : (parsePackageList pkgValue).length = 0
    · rw [if_pos h0]
      simp [h0, hn]
    · rw [if_neg h0]
      unfold validateHostData
      by_cases hv : extractOSVersion v = "0.0"
      · rw [if_pos hv]
        rw [if_pos (show ("OS version 0.0" : String) ≠ "" by decide)]
        simp [hv, hn]
      · rw [if_neg hv]
        by_cases h5 : (parsePackageList pkgValue).length ≤ 5
        · rw [if_pos h5]
          rw [if_pos (show ("too few packages" : String) ≠ "" by decide)]
          simp [hn, hv, not_lt.mpr h5]
        · rw [if_neg h5]
          by_cases hr : (parsePackageList pkgValue).any
              (fun p => goContains p "report.py") = true
          · rw [if_pos hr]
            rw [if_pos (show ("report.py in packages" : String) ≠ "" by decide)]
            obtain ⟨p, hpmem, hpc⟩ := List.any_eq_true.mp hr
            simp only [Option.isSome_none, Bool.false_eq_true, false_iff]
            intro hcontra
            exact absurd (hcontra.2.2.2 p hpmem)
              (by simp [hpc])
          · rw [if_neg hr]
            rw [if_neg (show ¬("" : String) ≠ "" from fun h => h rfl)]
            simp only [Option.isSome_some, true_iff]
            refine ⟨hn, hv, lt_of_not_le h5, ?_⟩
            intro p hpmem
            have hr' : (parsePackageList pkgValue).any
                (fun p => goContains p "report.py") = false := by
              simpa using hr
            have := List.any_eq_false.mp hr' p hpmem
            simpa using this

/-- Witness for C5 at an eligible host. -/
theorem c5_host_eligibility_witness :
    (fetchHostDataPure "Ubuntu 20.04.3 LTS"
      "nginx 1.18\nopenssl 1.1\nbash 5\ncurl 7\ngit 2\nvim 8").isSome =
      true :=
  (c5_host_eligibility _ _).mpr (by decide)

/-! ### Fix-command generation lemmas (claim C6) -/

theorem validatePackageNameOk_eq (p : String) :
    validatePackageNameOk p =
      (pkgNameReMatch p.toList && decide (p.toList.length ≤ 256)) := by
  unfold validatePackageNameOk
  by_cases hp : p = ""
  · subst hp
    decide
  · simp only [hp, decide_False, Bool.not_false, Bool.true_and]
    rw [Bool.and_comm]

theorem sanitizePackagesOk_eq (packages : List String) :
    sanitizePackagesOk packages =
      !(packages.any (fun p =>
        !(pkgNameReMatch p.toList && decide (p.toList.length ≤ 256)))) := by
  unfold sanitizePackagesOk
  induction packages with
  | nil => rfl
  | cons p ps ih =>
      rw [List.all_cons, List.any_cons, ih, validatePackageNameOk_eq,
        Bool.not_or, Bool.not_not]

/-- C6 (amended): fix-command generation dispatches on the OS family
(Debian/Ubuntu apt form, CentOS/Red Hat/RHEL and Amazon yum forms,
Debian form for unknown families), quotes the package names, falls back
to the family's full-system-update command on an empty list, and
discards the package list exactly when some name fails the validation
regex or is longer than 256 characters. -/
theorem c6_fix_command_amended (osName : String) (packages : List String) :
    generateFixCommand osName packages =
      specFixCommandAmended osName packages := by
  unfold generateFixCommand specFixCommandAmended classifyFamily
  dsimp only
  by_cases hs : sanitizePackagesOk packages = true
  · have hany : (packages.any (fun p =>
        !(pkgNameReMatch p.toList && decide (p.toList.length ≤ 256)))) =
          false := by
      have := sanitizePackagesOk_eq packages
      rw [hs] at this
      exact (Bool.not_eq_true' _).mp this.symm
    have hanyP : ¬((packages.any (fun p =>
        !(pkgNameReMatch p.toList && decide (p.toList.length ≤ 256)))) =
          true) := by
      rw [hany]
      decide
    rw [if_pos hs, if_neg hanyP]
    split_ifs <;>
      simp [generateDebianFixCommand, generateRHELFixCommand,
        generateAmazonFixCommand, fullUpdateCmd, listUpdateCmd, *]
  · have hany : (packages.any (fun p =>
        !(pkgNameReMatch p.toList && decide (p.toList.length ≤ 256)))) =
          true := by
      cases hb : (packages.any (fun p =>
        !(pkgNameReMatch p.toList && decide (p.toList.length ≤ 256)))) with
      | true => rfl
      | false =>
          exfalso
          apply hs
          rw [sanitizePackagesOk_eq, hb]
          decide
    rw [if_neg hs, if_pos hany]
    split_ifs <;> rfl

set_option maxRecDepth 8000 in
/-- C6 counterexample: for a 257-character package name that matches
the validation regex, the code discards the list (length cap in
`ValidatePackageName`) while the claim predicts the quoted install
command. -/
theorem c6_fix_command_counterexample :
    ¬ c6Claim "ubuntu" [String.mk (List.replicate 257 'a')] := by
  unfold c6Claim
  decide

/-! ### Host-target validation lemmas (claim C7) -/

theorem isFqdnCh_of_alnum {c : Char} (h : isAlnumCh c = true) :
    isFqdnCh c = true := by
  simp [isFqdnCh, h]

theorem labels_not_empty_eq (labs : List (List Char)) :
    labs.all (fun lab => !lab.isEmpty && decide (lab.length ≤ 63)) =
      labs.all (fun lab => decide (1 ≤ lab.length) &&
        decide (lab.length ≤ 63)) := by
  induction labs with
  | nil => rfl
  | cons lab t ih =>
      rw [List.all_cons, List.all_cons, ih]
      congr 1
      cases lab <;> simp

theorem isValidFQDN_eq_amended (s : String) :
    isValidFQDN s = specDNSAmended s := by
  unfold isValidFQDN specDNSAmended
  rcases hl : s.toList with _ | ⟨c, rest⟩
  · decide
  · rcases hr : rest.reverse with _ | ⟨d, mid⟩
    · have hrest : rest = [] := List.reverse_eq_nil_iff.mp hr
      subst hrest
      by_cases hdot : c = '.'
      · subst hdot
        decide
      · by_cases hc : isAlnumCh c = true
        · have hf := isFqdnCh_of_alnum hc
          simp [fqdnReMatch, splitCh, splitChAux, hdot, hc, hf]
        · have hc' : isAlnumCh c = false := by
            cases hcb : isAlnumCh c
            · rfl
            · exact absurd hcb hc
          simp [fqdnReMatch, hc']
    · have hrest : rest = mid.reverse ++ [d] := by
        have h2 := congrArg List.reverse hr
        simpa using h2
      subst hrest
      dsimp only
      rw [labels_not_empty_eq]
      rw [show (c :: (mid.reverse ++ [d])).getLast? =
        ((c :: mid.reverse) ++ [d]).getLast? by rw [List.cons_append]]
      rw [List.getLast?_concat]
      simp only [fqdnReMatch, List.reverse_append, List.reverse_reverse,
        List.reverse_cons, List.reverse_nil, List.nil_append,
        List.cons_append, List.singleton_append]
      rw [Bool.eq_iff_iff]
      simp only [Bool.and_eq_true, decide_eq_true_eq, List.all_cons,
        List.all_append, List.all_reverse, List.length_cons,
        List.length_append, List.length_reverse, List.length_singleton,
        Option.all_some]
      constructor
      · rintro ⟨⟨h253, hc, ⟨hd, h251⟩, hmid⟩, hlab⟩
        exact ⟨⟨⟨⟨h253, hc⟩, hd⟩, isFqdnCh_of_alnum hc, hmid,
          isFqdnCh_of_alnum hd, rfl⟩, hlab⟩
      · rintro ⟨⟨⟨⟨h253, hc⟩, hd⟩, hfc, hmid, hfd, htriv⟩, hlab⟩
        refine ⟨⟨h253, hc, ⟨hd, ?_⟩, hmid⟩, hlab⟩
        simp only [List.length_nil] at h253
        omega

/-- C7 (amended): remediation host-target validation accepts a string
exactly when it is a parseable IP address, or a string of at most 253
characters drawn from letters, digits, dots and hyphens that begins and
ends with an alphanumeric character and whose dot-separated labels all
have 1 to 63 characters. -/
theorem c7_host_target_amended (s : String) :
    validateHostTargetOk s = (goParseIPOk s || specDNSAmended s) := by
  unfold validateHostTargetOk
  by_cases hs : s = ""
  · subst hs
    decide
  · simp [hs, isValidFQDN_eq_amended]

/-- C7 counterexample: the code accepts `a.-b.c` (its regular
expression constrains only the first and the last character of the
whole string) while the claim rejects it because the label `-b` begins
with a hyphen. -/
theorem c7_host_target_counterexample : ¬ c7Claim "a.-b.c" := by
  unfold c7Claim
  decide

end ZTC
